import Mathlib

/-!
Shallow embedding of `src/skmultilearn/ensemble/partition.py`
(`LabelSpacePartitioningClassifier`), the only source file of the
repository, together with theorems settling the specification claims
about it.

Modelling conventions:
* A scipy/numpy matrix is `Mat`: explicit `rows`/`cols` shape fields plus a
  row-major list-of-rows payload of integers.
* A Python object's attributes that can be absent are `Option` fields of
  `Obj`; reading an absent attribute raises `PyError.attributeError name`,
  exactly as `self.name` does in Python.
* Fallible code returns `Except PyError`; list indexing `xs[i]` raises
  `PyError.indexError` when out of range, and writing to a
  `scipy.sparse.lil_matrix` entry outside its shape raises
  `PyError.indexError` as well.
* External collaborators (the base classifiers, the clusterer) are
  function-valued parameters, as they are pluggable capabilities in the
  source.
* State-mutating methods thread the object: they return the (possibly
  updated) object next to their result, so that frame properties are
  expressible.
-/

/-- A dense integer matrix with explicit shape, standing for the
numpy/scipy matrices the Python code passes around.  `data` is the
row-major list of rows. -/
structure Mat where
  rows : Nat
  cols : Nat
  data : List (List Int)
deriving DecidableEq, Repr

/-- Entry access with 0 as the out-of-range default (used only for
stating properties; the embedding of the code itself goes through
`List.get?` wherever Python would raise). -/
def Mat.entry (M : Mat) (r c : Nat) : Int :=
  (M.data.getD r []).getD c 0

/-- Errors a Python call can raise in the embedded fragment. -/
inductive PyError where
  /-- `AttributeError` for the named missing attribute. -/
  | attributeError (name : String)
  /-- `IndexError` from list or sparse-matrix indexing. -/
  | indexError
  /-- any exception propagated unchanged from an external collaborator
  (clusterer or classifier). -/
  | raised (tag : String)
deriving DecidableEq, Repr

/-- Positions (0-based, offset by `c0`) of the elements of a list
satisfying `pred`, in ascending order. -/
def posAux (pred : α → Bool) (c0 : Nat) : List α → List Nat
  | [] => []
  | x :: rest =>
    if pred x then c0 :: posAux pred (c0 + 1) rest
    else posAux pred (c0 + 1) rest

/-- Row-major `(row, column)` positions of the elements of a list of rows
satisfying `pred`, rows numbered from `r0`: the order scipy's
`.nonzero()` enumerates coordinates in. -/
def pos2Aux (pred : α → Bool) (r0 : Nat) : List (List α) → List (Nat × Nat)
  | [] => []
  | row :: rest =>
    (posAux pred 0 row).map (fun c => (r0, c)) ++ pos2Aux pred (r0 + 1) rest

/-- `predictions.nonzero()` of line 115: the row-major list of
`(row, column)` coordinates of the nonzero entries. -/
def nonzeroPairs (M : Mat) : List (Nat × Nat) :=
  pos2Aux (fun v => decide (v ≠ 0)) 0 M.data

/-- The attribute state of a `LabelSpacePartitioningClassifier` instance.
Fields with a trailing or leading underscore keep the exact Python
attribute names.  `label_count` and `model_count` (no underscores) are the
attributes `predict` reads on lines 111 and 113; `model_count_` and
`_label_count` are the ones `_generate_partition` assigns on lines
143-144.  A `none` field is an attribute that does not exist on the
instance.  The pluggable collaborators of `__init__` are the clusterer's
fit-and-predict operation and (implicitly, inside `classifiers_`) the
trained per-group classifiers, each a prediction function `Mat → Mat`. -/
structure Obj where
  /-- `self.clusterer.fit_predict`, the external clusterer capability. -/
  clusterer_fit_predict : Mat → Mat → Except PyError (List (List Nat))
  /-- `self.partition_` (set on line 142). -/
  partition_ : Option (List (List Nat)) := none
  /-- `self.model_count_` (set on line 143). -/
  model_count_ : Option Nat := none
  /-- `self._label_count` (set on line 144). -/
  _label_count : Option Nat := none
  /-- `self.classifiers_`, the per-group trained classifiers, set by the
  inherited `BinaryRelevance.fit`. -/
  classifiers_ : Option (List (Mat → Mat)) := none
  /-- `self.label_count`, read on line 111. -/
  label_count : Option Nat := none
  /-- `self.model_count`, read on line 113. -/
  model_count : Option Nat := none

/-- Reading attribute `name` held in option `o`: `AttributeError` when the
attribute is absent. -/
def getAttr (o : Option α) (name : String) : Except PyError α :=
  match o with
  | some v => Except.ok v
  | none => Except.error (PyError.attributeError name)

/-- Python list indexing `xs[i]` (raises `IndexError` out of range). -/
def pyIndex (xs : List α) (i : Nat) : Except PyError α :=
  match xs.get? i with
  | some v => Except.ok v
  | none => Except.error PyError.indexError

/-- One `result[row, j] = 1` store into the row-major payload of the
`lil_matrix` (bounds already checked by the caller). -/
def writeOne (res : List (List Int)) (r j : Nat) : List (List Int) :=
  res.set r ((res.getD r []).set j 1)

/-- The inner loop of `predict` (lines 116-117): for each coordinate pair
`(row, column)` of the current model's nonzero predictions, in order,
execute `result[row, self.partition_[model][column]] = 1`.  Reads
`self.partition_` afresh at each pair, as the source expression does;
raises `IndexError` when `model` or `column` is out of range of the
partition, or when the target cell lies outside the `(nrows, ncols)`
shape of the `lil_matrix`.  Threads the object (which it never writes). -/
def scatterPairs (o : Obj) (m nrows ncols : Nat) :
    List (Nat × Nat) → List (List Int) → Except PyError (Obj × List (List Int))
  | [], res => Except.ok (o, res)
  | (r, c) :: rest, res =>
    match getAttr o.partition_ "partition_" with
    | Except.error e => Except.error e
    | Except.ok part =>
      match pyIndex part m with
      | Except.error e => Except.error e
      | Except.ok grp =>
        match pyIndex grp c with
        | Except.error e => Except.error e
        | Except.ok j =>
          if r < nrows ∧ j < ncols then
            scatterPairs o m nrows ncols rest (writeOne res r j)
          else
            Except.error PyError.indexError

/-- The outer loop of `predict` (lines 113-117): `for model in
range(self.model_count)`.  Each iteration reads `self.classifiers_`,
indexes it at `model`, runs that classifier's `predict` on `X` (the
`_ensure_output_format` coercion keeps the nonzero pattern), and scatters
the nonzero coordinates.  Threads the object (which it never writes). -/
def runModels (o : Obj) (X : Mat) (nrows ncols : Nat) :
    List Nat → List (List Int) → Except PyError (Obj × List (List Int))
  | [], res => Except.ok (o, res)
  | m :: rest, res =>
    match getAttr o.classifiers_ "classifiers_" with
    | Except.error e => Except.error e
    | Except.ok cls =>
      match pyIndex cls m with
      | Except.error e => Except.error e
      | Except.ok clf =>
        match scatterPairs o m nrows ncols (nonzeroPairs (clf X)) res with
        | Except.error e => Except.error e
        | Except.ok (o2, res2) => runModels o2 X nrows ncols rest res2

/-- `LabelSpacePartitioningClassifier.predict` (lines 95-119).  The
`_ensure_input_format` coercion on lines 109-110 is an external
format-change collaborator that preserves the matrix, modelled as the
identity.  Line 111 allocates the zero `lil_matrix` of shape
`(X.shape[0], self.label_count)`; lines 113-117 are the scatter loops;
line 119 returns the accumulated result.  Returns the (unchanged)
object next to the result matrix.  The zero allocation of line 111 is
pure, so hoisting it past the read of `self.model_count` on line 113
preserves the observable behaviour. -/
def predict (o : Obj) (X : Mat) : Except PyError (Obj × List (List Int)) :=
  match getAttr o.label_count "label_count" with
  | Except.error e => Except.error e
  | Except.ok lc =>
    match getAttr o.model_count "model_count" with
    | Except.error e => Except.error e
    | Except.ok mc =>
      runModels o X X.rows lc (List.range mc)
        (List.replicate X.rows (List.replicate lc (0 : Int)))

/-- `LabelSpacePartitioningClassifier._generate_partition` (lines
121-146).  Calls the clusterer's `fit_predict`; if it raises, the
exception propagates before any assignment, so the object is returned
unchanged next to the error; on success lines 142-144 assign
`self.partition_`, `self.model_count_ = len(self.partition_)` and
`self._label_count = y.shape[1]`. -/
def generate_partition (o : Obj) (X y : Mat) : Option PyError × Obj :=
  match o.clusterer_fit_predict X y with
  | Except.error e => (some e, o)
  | Except.ok p =>
      (none,
       { o with
          partition_ := some p
          model_count_ := some p.length
          _label_count := some y.cols })

/-- A freshly constructed instance: `__init__` (lines 90-93) stores only
the collaborators (`clusterer`, `classifier`, `require_dense`,
`copyable_attrs`); none of the training-state attributes exist. -/
def freshObj (clusterer : Mat → Mat → Except PyError (List (List Nat))) : Obj :=
  { clusterer_fit_predict := clusterer }

/-- Modelled from the spec: `BinaryRelevance.fit`, the inherited training
routine (`src/skmultilearn/problem_transform/br.py`, not present under
`src/`).  Per spec sections 4.1, 4.2 and 6 it first invokes
`_generate_partition`, then trains one base-classifier instance per group
over the label sub-matrix `y[:, group]` and stores the list as
`self.classifiers_`; after it, the instance is in the `trained` state in
which the prediction aggregator's reads of the stored model count and
label count succeed, the model count equalling the number of groups and
the label count equalling `y.shape[1]`.  `train` is the external
capability producing the trained classifier of one group from
`(group, X, y)`. -/
def fit (o : Obj) (X y : Mat)
    (train : List Nat → Mat → Mat → (Mat → Mat)) : Option PyError × Obj :=
  match generate_partition o X y with
  | (some e, o') => (some e, o')
  | (none, o') =>
      match o'.partition_ with
      | none => (some PyError.indexError, o')
      | some p =>
          (none,
           { o' with
              classifiers_ := some (p.map (fun grp => train grp X y))
              label_count := some y.cols
              model_count := some p.length })

/-- Positions at which a group owns global label `g`,
as row-major `(group index, local position)` pairs. -/
def owners (p : List (List Nat)) (g : Nat) : List (Nat × Nat) :=
  pos2Aux (fun j => decide (j = g)) 0 p

/-- A true partition of the label index set `[0, L)`: every group entry
is a valid label index and every label index is owned by exactly one
`(group, position)`. -/
def TruePartition (p : List (List Nat)) (L : Nat) : Prop :=
  (∀ grp ∈ p, ∀ j ∈ grp, j < L) ∧ ∀ g < L, (owners p g).length = 1

instance (p : List (List Nat)) (L : Nat) : Decidable (TruePartition p L) := by
  unfold TruePartition; infer_instance

/-- Default classifier used to state properties via `List.getD` (never hit
when indices are in range). -/
def dfltClf : Mat → Mat := fun _ => { rows := 0, cols := 0, data := [] }

/-- Entry of the row-major result payload, 0 outside its extent. -/
def mget (res : List (List Int)) (r c : Nat) : Int :=
  (res.getD r []).getD c 0

/-- The result payload has exactly `n` rows of length `L` each: the shape
invariant of the `lil_matrix` allocated on line 111. -/
def Shaped (n L : Nat) (res : List (List Int)) : Prop :=
  res.length = n ∧ ∀ row ∈ res, row.length = L

theorem shaped_replicate (n L : Nat) :
    Shaped n L (List.replicate n (List.replicate L (0 : Int))) := by
  constructor
  · simp
  · intro row hrow
    rw [List.eq_of_mem_replicate hrow]
    simp

theorem mget_replicate (n L r c : Nat) :
    mget (List.replicate n (List.replicate L (0 : Int))) r c = 0 := by
  unfold mget
  simp only [List.getD_eq_getElem?_getD, List.getElem?_replicate]
  split
  · simp only [Option.getD_some, List.getElem?_replicate]
    split <;> rfl
  · rfl

theorem shaped_writeOne {n L : Nat} {res : List (List Int)} (h : Shaped n L res)
    {r : Nat} (hr : r < n) (j : Nat) : Shaped n L (writeOne res r j) := by
  obtain ⟨hlen, hrows⟩ := h
  constructor
  · simpa [writeOne] using hlen
  · intro row hrow
    rcases List.mem_or_eq_of_mem_set hrow with hmem | heq
    · exact hrows row hmem
    · subst heq
      rw [List.length_set]
      have hr' : r < res.length := hlen ▸ hr
      have : res.getD r [] = res[r] := by
        rw [List.getD_eq_getElem?_getD, List.getElem?_eq_getElem hr']
        rfl
      rw [this]
      exact hrows _ (List.getElem_mem hr')

theorem mget_writeOne_self {n L : Nat} {res : List (List Int)} (h : Shaped n L res)
    {r j : Nat} (hr : r < n) (hj : j < L) : mget (writeOne res r j) r j = 1 := by
  obtain ⟨hlen, hrows⟩ := h
  have hr' : r < res.length := hlen ▸ hr
  have hj' : j < (res[r]?.getD []).length := by
    rw [List.getElem?_eq_getElem hr', Option.getD_some, hrows _ (List.getElem_mem hr')]
    exact hj
  unfold mget writeOne
  simp only [List.getD_eq_getElem?_getD]
  rw [List.getElem?_set_self (by simpa using hr')]
  simp only [Option.getD_some]
  rw [List.getElem?_set_self hj']
  rfl

theorem mget_writeOne_ne {res : List (List Int)} {r j r' c' : Nat}
    (hne : ¬(r' = r ∧ c' = j)) : mget (writeOne res r j) r' c' = mget res r' c' := by
  unfold mget writeOne
  simp only [List.getD_eq_getElem?_getD]
  rcases Classical.em (r' = r) with hrr | hrr
  · subst hrr
    have hcj : j ≠ c' := fun hc => hne ⟨rfl, hc.symm⟩
    rcases Classical.em (r' < res.length) with hlt | hlt
    · rw [List.getElem?_set_self hlt]
      simp only [Option.getD_some]
      rw [List.getElem?_set_ne hcj]
    · rw [List.set_eq_of_length_le (by omega)]
  · rw [List.getElem?_set_ne (fun h => hrr h.symm)]

theorem mem_posAux {α : Type} {pred : α → Bool} :
    ∀ (row : List α) (c0 c : Nat),
      c ∈ posAux pred c0 row ↔
        c0 ≤ c ∧ ∃ x, row[c - c0]? = some x ∧ pred x = true := by
  intro row
  induction row with
  | nil => intro c0 c; simp [posAux]
  | cons v rest ih =>
    intro c0 c
    unfold posAux
    by_cases hv : pred v = true
    · rw [if_pos hv, List.mem_cons, ih (c0 + 1) c]
      constructor
      · rintro (rfl | ⟨hle, x, hx, hpx⟩)
        · exact ⟨Nat.le_refl _, v, by simp, hv⟩
        · refine ⟨by omega, x, ?_, hpx⟩
          rw [show c - c0 = (c - (c0 + 1)) + 1 by omega, List.getElem?_cons_succ]
          exact hx
      · rintro ⟨hle, x, hx, hpx⟩
        by_cases hc : c = c0
        · exact Or.inl hc
        · refine Or.inr ⟨by omega, x, ?_, hpx⟩
          rw [show c - c0 = (c - (c0 + 1)) + 1 by omega, List.getElem?_cons_succ] at hx
          exact hx
    · rw [if_neg hv, ih (c0 + 1) c]
      constructor
      · rintro ⟨hle, x, hx, hpx⟩
        refine ⟨by omega, x, ?_, hpx⟩
        rw [show c - c0 = (c - (c0 + 1)) + 1 by omega, List.getElem?_cons_succ]
        exact hx
      · rintro ⟨hle, x, hx, hpx⟩
        by_cases hc : c = c0
        · subst hc
          rw [Nat.sub_self, List.getElem?_cons_zero] at hx
          cases hx
          exact absurd hpx hv
        · refine ⟨by omega, x, ?_, hpx⟩
          rw [show c - c0 = (c - (c0 + 1)) + 1 by omega, List.getElem?_cons_succ] at hx
          exact hx

theorem mem_pos2Aux {α : Type} {pred : α → Bool} :
    ∀ (rows : List (List α)) (r0 r c : Nat),
      (r, c) ∈ pos2Aux pred r0 rows ↔
        r0 ≤ r ∧ ∃ row x, rows[r - r0]? = some row ∧ row[c]? = some x ∧
          pred x = true := by
  intro rows
  induction rows with
  | nil => intro r0 r c; simp [pos2Aux]
  | cons row rest ih =>
    intro r0 r c
    unfold pos2Aux
    rw [List.mem_append, List.mem_map, ih (r0 + 1) r c]
    constructor
    · rintro (⟨c1, hc1, heq⟩ | ⟨hle, row1, x, hrow, hx, hpx⟩)
      · have hr : r0 = r := congrArg Prod.fst heq
        have hc : c1 = c := congrArg Prod.snd heq
        subst hr
        subst hc
        rw [mem_posAux row 0 c1] at hc1
        obtain ⟨-, x, hx, hpx⟩ := hc1
        exact ⟨Nat.le_refl _, row, x, by simp, by simpa using hx, hpx⟩
      · refine ⟨by omega, row1, x, ?_, hx, hpx⟩
        rw [show r - r0 = (r - (r0 + 1)) + 1 by omega, List.getElem?_cons_succ]
        exact hrow
    · rintro ⟨hle, row1, x, hrow, hx, hpx⟩
      by_cases hr : r = r0
      · subst hr
        rw [Nat.sub_self, List.getElem?_cons_zero] at hrow
        cases hrow
        exact Or.inl ⟨c,
          (mem_posAux row 0 c).mpr ⟨Nat.zero_le _, x, by simpa using hx, hpx⟩, rfl⟩
      · refine Or.inr ⟨by omega, row1, x, ?_, hx, hpx⟩
        rw [show r - r0 = (r - (r0 + 1)) + 1 by omega, List.getElem?_cons_succ] at hrow
        exact hrow

theorem mem_nonzeroPairs {M : Mat} {r c : Nat} :
    (r, c) ∈ nonzeroPairs M ↔
      ∃ row v, M.data[r]? = some row ∧ row[c]? = some v ∧ v ≠ 0 := by
  unfold nonzeroPairs
  rw [mem_pos2Aux M.data 0 r c]
  simp only [Nat.sub_zero, Nat.zero_le, true_and, decide_eq_true_eq]

theorem nonzeroPairs_iff_entry {M : Mat} {r c : Nat} :
    (r, c) ∈ nonzeroPairs M ↔ M.entry r c ≠ 0 := by
  rw [mem_nonzeroPairs]
  unfold Mat.entry
  simp only [List.getD_eq_getElem?_getD]
  constructor
  · rintro ⟨row, v, hrow, hv, hne⟩
    rw [hrow, Option.getD_some, hv, Option.getD_some]
    exact hne
  · intro hne
    cases h1 : M.data[r]? with
    | none => rw [h1] at hne; simp at hne
    | some row =>
      cases h2 : row[c]? with
      | none => rw [h1, Option.getD_some, h2] at hne; simp at hne
      | some v =>
        rw [h1, Option.getD_some, h2, Option.getD_some] at hne
        exact ⟨row, v, rfl, h2, hne⟩

theorem mem_owners {p : List (List Nat)} {g m c : Nat} :
    (m, c) ∈ owners p g ↔ ∃ grp, p[m]? = some grp ∧ grp[c]? = some g := by
  unfold owners
  rw [mem_pos2Aux p 0 m c]
  simp only [Nat.sub_zero, Nat.zero_le, true_and, decide_eq_true_eq]
  constructor
  · rintro ⟨grp, x, hgrp, hx, rfl⟩
    exact ⟨grp, hgrp, hx⟩
  · rintro ⟨grp, hgrp, hx⟩
    exact ⟨grp, g, hgrp, hx, rfl⟩

theorem owners_unique {p : List (List Nat)} {L g : Nat} (hp : TruePartition p L)
    (hg : g < L) {mc1 mc2 : Nat × Nat}
    (h1 : mc1 ∈ owners p g) (h2 : mc2 ∈ owners p g) : mc1 = mc2 := by
  obtain ⟨a, ha⟩ := List.length_eq_one.mp (hp.2 g hg)
  rw [ha, List.mem_singleton] at h1 h2
  rw [h1, h2]

theorem scatterPairs_spec {o : Obj} {p : List (List Nat)} {grp : List Nat}
    (hpart : o.partition_ = some p) {m : Nat} (hgrp : p[m]? = some grp)
    {n L : Nat} :
    ∀ (pairs : List (Nat × Nat)) (res : List (List Int)),
      Shaped n L res →
      (∀ pr ∈ pairs, pr.1 < n ∧ ∃ g, grp[pr.2]? = some g ∧ g < L) →
      ∃ res2,
        scatterPairs o m n L pairs res = Except.ok (o, res2) ∧
        Shaped n L res2 ∧
        (∀ r g, (∃ c, (r, c) ∈ pairs ∧ grp[c]? = some g) → mget res2 r g = 1) ∧
        (∀ r g, ¬(∃ c, (r, c) ∈ pairs ∧ grp[c]? = some g) →
          mget res2 r g = mget res r g) := by
  intro pairs
  induction pairs with
  | nil =>
    intro res hsh _
    refine ⟨res, rfl, hsh, ?_, fun r g _ => rfl⟩
    rintro r g ⟨c, hc, -⟩
    exact absurd hc (List.not_mem_nil _)
  | cons pr rest ih =>
    intro res hsh hb
    obtain ⟨r, c⟩ := pr
    obtain ⟨hrn, g0, hg0, hg0L⟩ := hb (r, c) (List.mem_cons_self _ _)
    have hrest : ∀ pr ∈ rest, pr.1 < n ∧ ∃ g, grp[pr.2]? = some g ∧ g < L :=
      fun pr hpr => hb pr (List.mem_cons_of_mem _ hpr)
    obtain ⟨res2, heq, hsh2, ha2, hb2⟩ :=
      ih (writeOne res r g0) (shaped_writeOne hsh hrn g0) hrest
    refine ⟨res2, ?_, hsh2, ?_, ?_⟩
    · simp only [scatterPairs, hpart, getAttr, pyIndex, List.get?_eq_getElem?, hgrp, hg0]
      rw [if_pos ⟨hrn, hg0L⟩]
      exact heq
    · rintro r' g ⟨c', hc', hgc'⟩
      rcases List.mem_cons.mp hc' with hhead | htail
      · have hr' : r' = r := congrArg Prod.fst hhead
        have hc'' : c' = c := congrArg Prod.snd hhead
        subst hr'
        subst hc''
        have hgg : g0 = g := by
          rw [hg0] at hgc'
          exact Option.some.inj hgc'
        rw [← hgg]
        by_cases hR : ∃ c2, (r', c2) ∈ rest ∧ grp[c2]? = some g0
        · exact ha2 r' g0 hR
        · rw [hb2 r' g0 hR]
          exact mget_writeOne_self hsh hrn hg0L
      · exact ha2 r' g ⟨c', htail, hgc'⟩
    · intro r' g hno
      have hnoRest : ¬∃ c2, (r', c2) ∈ rest ∧ grp[c2]? = some g := by
        rintro ⟨c2, hc2, hg2⟩
        exact hno ⟨c2, List.mem_cons_of_mem _ hc2, hg2⟩
      rw [hb2 r' g hnoRest]
      apply mget_writeOne_ne
      rintro ⟨rfl, rfl⟩
      exact hno ⟨c, List.mem_cons_self _ _, hg0⟩

/-- Group `m`'s pass asserts global label `g` for row `r`: some local
column `c` of model `m`'s prediction on `X` is nonzero at row `r` and the
partition maps `(m, c)` to the global index `g`. -/
def Asserts (cs : List (Mat → Mat)) (p : List (List Nat)) (X : Mat)
    (m r g : Nat) : Prop :=
  ∃ c clf grp, cs[m]? = some clf ∧ p[m]? = some grp ∧
    (r, c) ∈ nonzeroPairs (clf X) ∧ grp[c]? = some g

theorem runModels_spec {o : Obj} {p : List (List Nat)} {cs : List (Mat → Mat)}
    (hpart : o.partition_ = some p) (hcs : o.classifiers_ = some cs)
    {X : Mat} {n L : Nat} :
    ∀ (models : List Nat) (res : List (List Int)),
      Shaped n L res →
      (∀ m ∈ models, ∃ clf, cs[m]? = some clf ∧ ∃ grp, p[m]? = some grp ∧
        ∀ pr ∈ nonzeroPairs (clf X), pr.1 < n ∧ ∃ g, grp[pr.2]? = some g ∧ g < L) →
      ∃ res2,
        runModels o X n L models res = Except.ok (o, res2) ∧
        Shaped n L res2 ∧
        (∀ r g, (∃ m ∈ models, Asserts cs p X m r g) → mget res2 r g = 1) ∧
        (∀ r g, ¬(∃ m ∈ models, Asserts cs p X m r g) →
          mget res2 r g = mget res r g) := by
  intro models
  induction models with
  | nil =>
    intro res hsh _
    refine ⟨res, rfl, hsh, ?_, fun r g _ => rfl⟩
    rintro r g ⟨m, hm, -⟩
    exact absurd hm (List.not_mem_nil _)
  | cons m rest ih =>
    intro res hsh hbound
    obtain ⟨clf, hclf, grp, hgrp, hpairs⟩ := hbound m (List.mem_cons_self _ _)
    obtain ⟨res1, heq1, hsh1, ha1, hb1⟩ :=
      scatterPairs_spec hpart hgrp (nonzeroPairs (clf X)) res hsh hpairs
    obtain ⟨res2, heq2, hsh2, ha2, hb2⟩ :=
      ih res1 hsh1 (fun m2 hm2 => hbound m2 (List.mem_cons_of_mem _ hm2))
    refine ⟨res2, ?_, hsh2, ?_, ?_⟩
    · simp only [runModels, hcs, getAttr, pyIndex, List.get?_eq_getElem?, hclf, heq1]
      exact heq2
    · rintro r g ⟨m2, hm2, hassert⟩
      rcases List.mem_cons.mp hm2 with rfl | htail
      · by_cases hR : ∃ m3 ∈ rest, Asserts cs p X m3 r g
        · exact ha2 r g hR
        · rw [hb2 r g hR]
          obtain ⟨c, clf2, grp2, hclf2, hgrp2, hnz, hgc⟩ := hassert
          have hclf3 : clf2 = clf := Option.some.inj (hclf2.symm.trans hclf)
          have hgrp3 : grp2 = grp := Option.some.inj (hgrp2.symm.trans hgrp)
          subst hclf3
          subst hgrp3
          exact ha1 r g ⟨c, hnz, hgc⟩
      · exact ha2 r g ⟨m2, htail, hassert⟩
    · intro r g hno
      have hnoRest : ¬∃ m3 ∈ rest, Asserts cs p X m3 r g := by
        rintro ⟨m3, hm3, hass⟩
        exact hno ⟨m3, List.mem_cons_of_mem _ hm3, hass⟩
      rw [hb2 r g hnoRest]
      apply hb1
      rintro ⟨c, hnz, hgc⟩
      exact hno ⟨m, List.mem_cons_self _ _, c, clf, grp, hclf, hgrp, hnz, hgc⟩

/-- Master characterization of a successful `predict` on a trained
instance: it succeeds, the result has the allocated shape, and an entry
is `1` exactly when some group in range asserts it, `0` otherwise. -/
theorem predict_spec {o : Obj} {p : List (List Nat)} {cs : List (Mat → Mat)}
    {L MC : Nat}
    (hpart : o.partition_ = some p) (hcs : o.classifiers_ = some cs)
    (hlc : o.label_count = some L) (hmc : o.model_count = some MC)
    {X : Mat}
    (hbound : ∀ m < MC, ∃ clf, cs[m]? = some clf ∧ ∃ grp, p[m]? = some grp ∧
      ∀ pr ∈ nonzeroPairs (clf X), pr.1 < X.rows ∧
        ∃ g, grp[pr.2]? = some g ∧ g < L) :
    ∃ res,
      predict o X = Except.ok (o, res) ∧
      Shaped X.rows L res ∧
      (∀ r g, (∃ m < MC, Asserts cs p X m r g) → mget res r g = 1) ∧
      (∀ r g, ¬(∃ m < MC, Asserts cs p X m r g) → mget res r g = 0) := by
  obtain ⟨res, heq, hsh, ha, hb⟩ :=
    runModels_spec hpart hcs (X := X) (n := X.rows) (L := L) (List.range MC)
      (List.replicate X.rows (List.replicate L (0 : Int)))
      (shaped_replicate X.rows L)
      (fun m hm => hbound m (List.mem_range.mp hm))
  refine ⟨res, ?_, hsh, ?_, ?_⟩
  · simp only [predict, hlc, hmc, getAttr]
    exact heq
  · rintro r g ⟨m, hm, hass⟩
    exact ha r g ⟨m, List.mem_range.mpr hm, hass⟩
  · intro r g hno
    rw [hb r g (by rintro ⟨m, hm, hass⟩; exact hno ⟨m, List.mem_range.mp hm, hass⟩)]
    exact mget_replicate X.rows L r g

theorem getElem?_eq_some_getD {α : Type} {l : List α} {i : Nat}
    (h : i < l.length) (d : α) : l[i]? = some (l.getD i d) := by
  simp [List.getD_eq_getElem?_getD, List.getElem?_eq_getElem h]

theorem getD_mem {α : Type} {l : List α} {i : Nat} (h : i < l.length) (d : α) :
    l.getD i d ∈ l :=
  List.getElem?_mem (getElem?_eq_some_getD h d)

theorem scatterPairs_obj {o : Obj} {m n L : Nat} :
    ∀ (pairs : List (Nat × Nat)) (res : List (List Int)) {o2 : Obj}
      {res2 : List (List Int)},
      scatterPairs o m n L pairs res = Except.ok (o2, res2) → o2 = o := by
  intro pairs
  induction pairs with
  | nil =>
    intro res o2 res2 h
    simp only [scatterPairs] at h
    cases h
    rfl
  | cons pr rest ih =>
    intro res o2 res2 h
    obtain ⟨r, c⟩ := pr
    simp only [scatterPairs] at h
    split at h
    · cases h
    · split at h
      · cases h
      · split at h
        · cases h
        · split at h
          · exact ih _ h
          · cases h

theorem runModels_obj {X : Mat} {n L : Nat} :
    ∀ (models : List Nat) (o : Obj) (res : List (List Int)) {o2 : Obj}
      {res2 : List (List Int)},
      runModels o X n L models res = Except.ok (o2, res2) → o2 = o := by
  intro models
  induction models with
  | nil =>
    intro o res o2 res2 h
    simp only [runModels] at h
    cases h
    rfl
  | cons m rest ih =>
    intro o res o2 res2 h
    simp only [runModels] at h
    split at h
    · cases h
    · split at h
      · cases h
      · split at h
        · cases h
        · rename_i o3 res3 heq3
          exact (ih _ _ h).trans (scatterPairs_obj _ _ heq3)

theorem scatterPairs_frame {o : Obj} {p : List (List Nat)}
    (hpart : o.partition_ = some p) {m n L : Nat} {grp : List Nat}
    (hgrp : p[m]? = some grp) :
    ∀ (pairs : List (Nat × Nat)) (res : List (List Int)) {o2 : Obj}
      {res2 : List (List Int)},
      scatterPairs o m n L pairs res = Except.ok (o2, res2) →
      ∀ r g, g ∉ grp → mget res2 r g = mget res r g := by
  intro pairs
  induction pairs with
  | nil =>
    intro res o2 res2 h r g hg
    simp only [scatterPairs] at h
    cases h
    rfl
  | cons pr rest ih =>
    intro res o2 res2 h r g hg
    obtain ⟨r1, c1⟩ := pr
    simp only [scatterPairs, hpart, getAttr, pyIndex, List.get?_eq_getElem?, hgrp] at h
    cases hj : grp[c1]? with
    | none =>
      rw [hj] at h
      simp only [] at h
      cases h
    | some j =>
      rw [hj] at h
      simp only [] at h
      split at h
      · have hjmem : j ∈ grp := List.getElem?_mem hj
        rw [ih _ h r g hg]
        apply mget_writeOne_ne
        rintro ⟨-, rfl⟩
        exact hg hjmem
      · cases h

/-- Shape contract between the trained classifiers and the stored
partition on input `X`: every nonzero coordinate of every group's
prediction lies within the result's `X.rows` rows, within its group's
local width, and its group maps it to a global label index below `L`. -/
def InBounds (cs : List (Mat → Mat)) (p : List (List Nat)) (X : Mat)
    (L : Nat) : Prop :=
  ∀ m < p.length, ∀ pr ∈ nonzeroPairs ((cs.getD m dfltClf) X),
    pr.1 < X.rows ∧ pr.2 < (p.getD m []).length ∧ (p.getD m []).getD pr.2 0 < L

instance (cs : List (Mat → Mat)) (p : List (List Nat)) (X : Mat) (L : Nat) :
    Decidable (InBounds cs p X L) := by
  unfold InBounds
  infer_instance

theorem hbound_of_inBounds {p : List (List Nat)} {cs : List (Mat → Mat)}
    {L : Nat} {X : Mat} (hlen : cs.length = p.length)
    (hshape : InBounds cs p X L) :
    ∀ m < p.length, ∃ clf, cs[m]? = some clf ∧ ∃ grp, p[m]? = some grp ∧
      ∀ pr ∈ nonzeroPairs (clf X), pr.1 < X.rows ∧
        ∃ g, grp[pr.2]? = some g ∧ g < L := by
  intro m hm
  refine ⟨cs.getD m dfltClf, getElem?_eq_some_getD (by omega) dfltClf,
    p.getD m [], getElem?_eq_some_getD hm [], ?_⟩
  intro pr hpr
  obtain ⟨h1, h2, h3⟩ := hshape m hm pr hpr
  exact ⟨h1, (p.getD m []).getD pr.2 0, getElem?_eq_some_getD h2 0, h3⟩

theorem binary_of_mget {res : List (List Int)}
    (h : ∀ r c, mget res r c = 0 ∨ mget res r c = 1) :
    ∀ row ∈ res, ∀ v ∈ row, v = 0 ∨ v = 1 := by
  intro row hrow v hv
  obtain ⟨r, hr, hrowEq⟩ := List.mem_iff_getElem.mp hrow
  obtain ⟨c, hc, hvEq⟩ := List.mem_iff_getElem.mp hv
  have hm : mget res r c = v := by
    unfold mget
    simp only [List.getD_eq_getElem?_getD]
    rw [List.getElem?_eq_getElem hr, Option.getD_some, hrowEq,
      List.getElem?_eq_getElem hc, Option.getD_some, hvEq]
  rw [← hm]
  exact h r c

/-- Concrete clusterer used in witnesses: always yields the partition
`[[0, 2], [1]]` of a 3-label space (the spec's round-trip scenario). -/
def demoClusterer : Mat → Mat → Except PyError (List (List Nat)) :=
  fun _ _ => Except.ok [[0, 2], [1]]

/-- Concrete clusterer used in witnesses that always raises. -/
def failClusterer : Mat → Mat → Except PyError (List (List Nat)) :=
  fun _ _ => Except.error (PyError.raised "clusterer failure")

/-- Concrete classifier used in witnesses: predicts all-ones with `g`
local columns. -/
def onesClf (g : Nat) : Mat → Mat :=
  fun X =>
    { rows := X.rows, cols := g,
      data := List.replicate X.rows (List.replicate g (1 : Int)) }

/-- Concrete trained instance used in witnesses: partition `[[0,2],[1]]`
over 3 labels, all-ones group classifiers. -/
def demoObj : Obj :=
  { clusterer_fit_predict := demoClusterer
    partition_ := some [[0, 2], [1]]
    model_count_ := some 2
    _label_count := some 3
    classifiers_ := some [onesClf 2, onesClf 1]
    label_count := some 3
    model_count := some 2 }

/-- Concrete one-row input used in witnesses. -/
def demoX : Mat := { rows := 1, cols := 2, data := [[5, 7]] }

/-- Concrete training label matrix (1 sample, 3 labels) for witnesses. -/
def demoY : Mat := { rows := 1, cols := 3, data := [[0, 1, 0]] }

/-- Concrete training capability for witnesses: each group's trained
classifier predicts all-ones over the group's width. -/
def demoTrain : List Nat → Mat → Mat → (Mat → Mat) :=
  fun grp _ _ => onesClf grp.length

/-- Fresh witness instance configured with `demoClusterer`. -/
def demoFreshObj : Obj := freshObj demoClusterer

/-- Witness instance after a successful `fit` call. -/
def demoTrained : Obj := (fit demoFreshObj demoX demoY demoTrain).2

/-- C6: for every freshly constructed instance on which `fit` has never
been called, calling `predict` (with any input `X`) raises an
uninitialized-state/attribute error — the first missing attribute read,
`self.label_count` on line 111, raises `AttributeError` — and never
returns a result matrix. -/
theorem predict_unfitted_attribute_error
    (clust : Mat → Mat → Except PyError (List (List Nat))) (X : Mat) :
    predict (freshObj clust) X =
      Except.error (PyError.attributeError "label_count") := rfl

/-- C5: `predict` reads `self.label_count` and `self.model_count`
(lines 111, 113), which are not the names `_generate_partition` assigns
(`self.model_count_`, `self._label_count`, lines 143-144); hence on an
instance whose training state is populated solely by
`_generate_partition`'s assignments, after a successful partition
generation, every call to `predict` fails with an attribute error before
producing a result. -/
theorem predict_attribute_error_after_generate_partition
    (clust : Mat → Mat → Except PyError (List (List Nat)))
    (X0 y0 X : Mat) (p : List (List Nat))
    (h : clust X0 y0 = Except.ok p) :
    predict ((generate_partition (freshObj clust) X0 y0).2) X =
      Except.error (PyError.attributeError "label_count") := by
  simp [generate_partition, freshObj, h, predict, getAttr]

theorem predict_attribute_error_after_generate_partition_witness :
    demoClusterer demoX demoY = Except.ok [[0, 2], [1]] ∧
    predict ((generate_partition (freshObj demoClusterer) demoX demoY).2) demoX =
      Except.error (PyError.attributeError "label_count") :=
  ⟨rfl, predict_attribute_error_after_generate_partition demoClusterer
    demoX demoY demoX [[0, 2], [1]] rfl⟩

/-- C10: a call to `predict` leaves all stored training state unchanged:
whenever it returns a result, the threaded object is returned exactly as
it was passed in (no statement of `predict` assigns an attribute), and
the result matrix is built afresh from the zero allocation of line 111
rather than retained on the instance (the object holds no result
field). -/
theorem predict_preserves_training_state (o : Obj) (X : Mat) (o2 : Obj)
    (res : List (List Int)) (h : predict o X = Except.ok (o2, res)) :
    o2 = o := by
  simp only [predict] at h
  split at h
  · cases h
  · split at h
    · cases h
    · exact runModels_obj _ _ _ h

theorem predict_preserves_training_state_witness :
    predict demoObj demoX = Except.ok (demoObj, [[1, 1, 1]]) ∧ demoObj = demoObj :=
  ⟨by rfl, predict_preserves_training_state demoObj demoX demoObj [[1, 1, 1]] (by rfl)⟩

/-- C9: if the clusterer's fit-and-predict operation raises during
`_generate_partition`, the error propagates to the caller unchanged and
the instance's attributes retain whatever values they had before the
call; if it succeeds, `partition_`, `model_count_` and `_label_count`
are all overwritten together with the new values. -/
theorem generate_partition_error_and_state (o : Obj) (X y : Mat) :
    (∀ e, o.clusterer_fit_predict X y = Except.error e →
      generate_partition o X y = (some e, o)) ∧
    (∀ p, o.clusterer_fit_predict X y = Except.ok p →
      generate_partition o X y =
        (none,
         { o with
            partition_ := some p
            model_count_ := some p.length
            _label_count := some y.cols })) := by
  constructor
  · intro e he
    simp [generate_partition, he]
  · intro p hp
    simp [generate_partition, hp]

theorem generate_partition_error_and_state_witness :
    generate_partition (freshObj failClusterer) demoX demoY =
      (some (PyError.raised "clusterer failure"), freshObj failClusterer) ∧
    generate_partition (freshObj demoClusterer) demoX demoY =
      (none,
       { freshObj demoClusterer with
          partition_ := some [[0, 2], [1]]
          model_count_ := some 2
          _label_count := some 3 }) :=
  ⟨(generate_partition_error_and_state (freshObj failClusterer) demoX demoY).1
      (PyError.raised "clusterer failure") rfl,
   (generate_partition_error_and_state (freshObj demoClusterer) demoX demoY).2
      [[0, 2], [1]] rfl⟩

/-- C7: for every successful training call, after `fit` the stored
`model_count_` equals the number of groups in the partition returned by
the clusterer's fit-and-predict operation for that call. -/
theorem fit_model_count_eq_clusterer_groups (o : Obj) (X y : Mat)
    (train : List Nat → Mat → Mat → (Mat → Mat)) (o2 : Obj)
    (h : fit o X y train = (none, o2)) :
    ∃ p, o.clusterer_fit_predict X y = Except.ok p ∧
      o2.model_count_ = some p.length := by
  simp only [fit, generate_partition] at h
  cases hc : o.clusterer_fit_predict X y with
  | error e =>
    rw [hc] at h
    simp at h
  | ok p =>
    rw [hc] at h
    simp only [] at h
    cases h
    exact ⟨p, rfl, rfl⟩

theorem fit_model_count_eq_clusterer_groups_witness :
    fit demoFreshObj demoX demoY demoTrain = (none, demoTrained) ∧
    ∃ p, demoFreshObj.clusterer_fit_predict demoX demoY = Except.ok p ∧
      demoTrained.model_count_ = some p.length :=
  ⟨rfl, fit_model_count_eq_clusterer_groups demoFreshObj demoX demoY demoTrain
    demoTrained rfl⟩

/-- C8: for every successful training call with label matrix `y`, after
`fit` the stored `_label_count` equals `y.shape[1]`, the number of
columns of the training label matrix. -/
theorem fit_label_count_eq_y_cols (o : Obj) (X y : Mat)
    (train : List Nat → Mat → Mat → (Mat → Mat)) (o2 : Obj)
    (h : fit o X y train = (none, o2)) :
    o2._label_count = some y.cols := by
  simp only [fit, generate_partition] at h
  cases hc : o.clusterer_fit_predict X y with
  | error e =>
    rw [hc] at h
    simp at h
  | ok p =>
    rw [hc] at h
    simp only [] at h
    cases h
    rfl

theorem fit_label_count_eq_y_cols_witness :
    fit demoFreshObj demoX demoY demoTrain = (none, demoTrained) ∧
    demoTrained._label_count = some demoY.cols :=
  ⟨rfl, fit_label_count_eq_y_cols demoFreshObj demoX demoY demoTrain
    demoTrained rfl⟩

/-- C2: for every trained instance (possibly with overlapping groups)
and every input `X` on which prediction succeeds, every entry of the
returned matrix is 0 or 1, and whenever any group (hence also two or
more) asserts label `g` as 1 for row `r`, the merged result holds
exactly 1 at `(r, g)` — an idempotent OR, never an additive count. -/
theorem predict_binary_or_merge (o : Obj) (p : List (List Nat))
    (cs : List (Mat → Mat)) (L : Nat) (X : Mat)
    (hpart : o.partition_ = some p) (hcs : o.classifiers_ = some cs)
    (hlc : o.label_count = some L) (hmc : o.model_count = some p.length)
    (hlen : cs.length = p.length)
    (hshape : InBounds cs p X L) :
    ∃ res,
      predict o X = Except.ok (o, res) ∧
      (∀ row ∈ res, ∀ v ∈ row, v = 0 ∨ v = 1) ∧
      (∀ r g m c, m < p.length →
        (r, c) ∈ nonzeroPairs ((cs.getD m dfltClf) X) →
        (p.getD m []).getD c 0 = g →
        mget res r g = 1) := by
  obtain ⟨res, heq, hsh, ha, hb⟩ := predict_spec hpart hcs hlc hmc
    (hbound_of_inBounds hlen hshape)
  refine ⟨res, heq, ?_, ?_⟩
  · apply binary_of_mget
    intro r c
    by_cases hA : ∃ m < p.length, Asserts cs p X m r c
    · exact Or.inr (ha r c hA)
    · exact Or.inl (hb r c hA)
  · intro r g m c hm hnz hgd
    apply ha
    refine ⟨m, hm, c, cs.getD m dfltClf, p.getD m [],
      getElem?_eq_some_getD (by omega) dfltClf, getElem?_eq_some_getD hm [],
      hnz, ?_⟩
    have hc2 : c < (p.getD m []).length := (hshape m hm (r, c) hnz).2.1
    rw [← hgd]
    exact getElem?_eq_some_getD hc2 0

/-- Witness trained instance with overlapping groups: label 1 belongs to
both groups, both of whose classifiers predict all-ones. -/
def overlapObj : Obj :=
  { clusterer_fit_predict := demoClusterer
    partition_ := some [[0, 1], [1, 2]]
    classifiers_ := some [onesClf 2, onesClf 2]
    label_count := some 3
    model_count := some 2 }

theorem predict_binary_or_merge_witness :
    ∃ res,
      predict overlapObj demoX = Except.ok (overlapObj, res) ∧
      (∀ row ∈ res, ∀ v ∈ row, v = 0 ∨ v = 1) ∧
      (∀ r g m c, m < ([[0, 1], [1, 2]] : List (List Nat)).length →
        (r, c) ∈ nonzeroPairs (([onesClf 2, onesClf 2].getD m dfltClf) demoX) →
        (([[0, 1], [1, 2]] : List (List Nat)).getD m []).getD c 0 = g →
        mget res r g = 1) :=
  predict_binary_or_merge overlapObj [[0, 1], [1, 2]] [onesClf 2, onesClf 2] 3
    demoX rfl rfl rfl rfl rfl (by decide)

/-- C3: for every trained instance and input `X` on which prediction
succeeds, if a global label index `g` is not a member of any group of
the stored partition, then column `g` of the returned matrix is 0 for
every row, and no error is raised on account of the uncovered index. -/
theorem predict_uncovered_label_zero (o : Obj) (p : List (List Nat))
    (cs : List (Mat → Mat)) (L : Nat) (X : Mat) (g : Nat)
    (hpart : o.partition_ = some p) (hcs : o.classifiers_ = some cs)
    (hlc : o.label_count = some L) (hmc : o.model_count = some p.length)
    (hlen : cs.length = p.length)
    (hshape : InBounds cs p X L)
    (hg : ∀ m < p.length, g ∉ p.getD m []) :
    ∃ res,
      predict o X = Except.ok (o, res) ∧
      ∀ r, mget res r g = 0 := by
  obtain ⟨res, heq, hsh, ha, hb⟩ := predict_spec hpart hcs hlc hmc
    (hbound_of_inBounds hlen hshape)
  refine ⟨res, heq, ?_⟩
  intro r
  apply hb
  rintro ⟨m, hm, c, clf, grp, hclf, hgrp, hnz, hgc⟩
  have hgrp2 : grp = p.getD m [] :=
    Option.some.inj (hgrp.symm.trans (getElem?_eq_some_getD hm []))
  exact hg m hm (hgrp2 ▸ List.getElem?_mem hgc)

/-- Witness trained instance whose partition `[[0], [2]]` leaves label 1
uncovered. -/
def gapObj : Obj :=
  { clusterer_fit_predict := demoClusterer
    partition_ := some [[0], [2]]
    classifiers_ := some [onesClf 1, onesClf 1]
    label_count := some 3
    model_count := some 2 }

theorem predict_uncovered_label_zero_witness :
    ∃ res,
      predict gapObj demoX = Except.ok (gapObj, res) ∧
      ∀ r, mget res r 1 = 0 :=
  predict_uncovered_label_zero gapObj [[0], [2]] [onesClf 1, onesClf 1] 3 demoX 1
    rfl rfl rfl rfl rfl (by decide) (by decide)

/-- C4: for a successful training call on label matrix `y`, `fit`
reports no error, and predicting on any `X` (on which the trained
classifiers meet the shape contract) returns a binary matrix of shape
`(X.rows, y.cols)` — `label_count` being the number of columns of the
training label matrix. -/
theorem predict_shape_after_fit (o : Obj) (X0 y X : Mat)
    (train : List Nat → Mat → Mat → (Mat → Mat)) (p : List (List Nat))
    (hclust : o.clusterer_fit_predict X0 y = Except.ok p)
    (hshape : InBounds (p.map (fun grp => train grp X0 y)) p X y.cols) :
    (fit o X0 y train).1 = none ∧
    ∃ res,
      predict (fit o X0 y train).2 X = Except.ok ((fit o X0 y train).2, res) ∧
      res.length = X.rows ∧
      (∀ row ∈ res, row.length = y.cols) ∧
      (∀ row ∈ res, ∀ v ∈ row, v = 0 ∨ v = 1) := by
  have hpart : ((fit o X0 y train).2).partition_ = some p := by
    simp [fit, generate_partition, hclust]
  have hcs : ((fit o X0 y train).2).classifiers_ =
      some (p.map (fun grp => train grp X0 y)) := by
    simp [fit, generate_partition, hclust]
  have hlc : ((fit o X0 y train).2).label_count = some y.cols := by
    simp [fit, generate_partition, hclust]
  have hmc : ((fit o X0 y train).2).model_count = some p.length := by
    simp [fit, generate_partition, hclust]
  have hlen : (p.map (fun grp => train grp X0 y)).length = p.length := by simp
  obtain ⟨res, heq, hsh, ha, hb⟩ :=
    predict_spec hpart hcs hlc hmc (hbound_of_inBounds hlen hshape)
  refine ⟨by simp [fit, generate_partition, hclust], res, heq, hsh.1, hsh.2, ?_⟩
  apply binary_of_mget
  intro r c
  by_cases hA : ∃ m < p.length, Asserts (p.map (fun grp => train grp X0 y)) p X m r c
  · exact Or.inr (ha r c hA)
  · exact Or.inl (hb r c hA)

theorem predict_shape_after_fit_witness :
    (fit demoFreshObj demoX demoY demoTrain).1 = none ∧
    ∃ res,
      predict (fit demoFreshObj demoX demoY demoTrain).2 demoX =
        Except.ok ((fit demoFreshObj demoX demoY demoTrain).2, res) ∧
      res.length = demoX.rows ∧
      (∀ row ∈ res, row.length = demoY.cols) ∧
      (∀ row ∈ res, ∀ v ∈ row, v = 0 ∨ v = 1) :=
  predict_shape_after_fit demoFreshObj demoX demoY demoX demoTrain [[0, 2], [1]]
    rfl (by decide)

/-- C1: on a trained instance whose partition covers every label index
exactly once (a true partition), the matrix `predict` returns has, at
each global label index owned by group `m` at local position `c`,
exactly the 0/1 indicator of classifier `m`'s prediction at local column
`c` for that row; and no group's scatter pass changes any entry at a
label index outside that group's ownership. -/
theorem predict_true_partition_exact (o : Obj) (p : List (List Nat))
    (cs : List (Mat → Mat)) (L : Nat) (X : Mat)
    (hpart : o.partition_ = some p) (hcs : o.classifiers_ = some cs)
    (hlc : o.label_count = some L) (hmc : o.model_count = some p.length)
    (hlen : cs.length = p.length)
    (htrue : TruePartition p L)
    (hshape : ∀ m < p.length, ∀ pr ∈ nonzeroPairs ((cs.getD m dfltClf) X),
      pr.1 < X.rows ∧ pr.2 < (p.getD m []).length) :
    ∃ res,
      predict o X = Except.ok (o, res) ∧
      (∀ m, m < p.length → ∀ c, c < (p.getD m []).length → ∀ r,
        mget res r ((p.getD m []).getD c 0) =
          if ((cs.getD m dfltClf) X).entry r c ≠ 0 then 1 else 0) ∧
      (∀ m r g, ∀ res0 res1 : List (List Int), ∀ o1 : Obj, m < p.length →
        g ∉ p.getD m [] →
        scatterPairs o m X.rows L (nonzeroPairs ((cs.getD m dfltClf) X)) res0 =
          Except.ok (o1, res1) →
        mget res1 r g = mget res0 r g) := by
  have hIB : InBounds cs p X L := by
    intro m hm pr hpr
    obtain ⟨h1, h2⟩ := hshape m hm pr hpr
    exact ⟨h1, h2, htrue.1 _ (getD_mem hm []) _ (getD_mem h2 0)⟩
  obtain ⟨res, heq, hsh, ha, hb⟩ := predict_spec hpart hcs hlc hmc
    (hbound_of_inBounds hlen hIB)
  refine ⟨res, heq, ?_, ?_⟩
  · intro m hm c hc r
    by_cases hE : ((cs.getD m dfltClf) X).entry r c ≠ 0
    · rw [if_pos hE]
      apply ha
      exact ⟨m, hm, c, cs.getD m dfltClf, p.getD m [],
        getElem?_eq_some_getD (by omega) dfltClf, getElem?_eq_some_getD hm [],
        nonzeroPairs_iff_entry.mpr hE, getElem?_eq_some_getD hc 0⟩
    · rw [if_neg hE]
      apply hb
      rintro ⟨m2, hm2, c2, clf2, grp2, hclf2, hgrp2, hnz2, hg2⟩
      have hgL : (p.getD m []).getD c 0 < L :=
        htrue.1 _ (getD_mem hm []) _ (getD_mem hc 0)
      have ho1 : (m, c) ∈ owners p ((p.getD m []).getD c 0) :=
        mem_owners.mpr ⟨p.getD m [], getElem?_eq_some_getD hm [],
          getElem?_eq_some_getD hc 0⟩
      have ho2 : (m2, c2) ∈ owners p ((p.getD m []).getD c 0) :=
        mem_owners.mpr ⟨grp2, hgrp2, hg2⟩
      have hmc2 : (m, c) = (m2, c2) := owners_unique htrue hgL ho1 ho2
      have hm3 : m2 = m := (congrArg Prod.fst hmc2).symm
      have hc3 : c2 = c := (congrArg Prod.snd hmc2).symm
      rw [hm3] at hclf2
      rw [hc3] at hnz2
      have hclf3 : clf2 = cs.getD m dfltClf :=
        Option.some.inj (hclf2.symm.trans (getElem?_eq_some_getD (by omega) dfltClf))
      rw [hclf3] at hnz2
      exact hE (nonzeroPairs_iff_entry.mp hnz2)
  · intro m r g res0 res1 o1 hm hg hscat
    exact scatterPairs_frame hpart (getElem?_eq_some_getD hm []) _ _ hscat r g hg

theorem predict_true_partition_exact_witness :
    ∃ res,
      predict demoObj demoX = Except.ok (demoObj, res) ∧
      (∀ m, m < ([[0, 2], [1]] : List (List Nat)).length →
        ∀ c, c < (([[0, 2], [1]] : List (List Nat)).getD m []).length → ∀ r,
        mget res r ((([[0, 2], [1]] : List (List Nat)).getD m []).getD c 0) =
          if (([onesClf 2, onesClf 1].getD m dfltClf) demoX).entry r c ≠ 0
          then 1 else 0) ∧
      (∀ m r g, ∀ res0 res1 : List (List Int), ∀ o1 : Obj,
        m < ([[0, 2], [1]] : List (List Nat)).length →
        g ∉ ([[0, 2], [1]] : List (List Nat)).getD m [] →
        scatterPairs demoObj m demoX.rows 3
            (nonzeroPairs (([onesClf 2, onesClf 1].getD m dfltClf) demoX)) res0 =
          Except.ok (o1, res1) →
        mget res1 r g = mget res0 r g) :=
  predict_true_partition_exact demoObj [[0, 2], [1]] [onesClf 2, onesClf 1] 3 demoX
    rfl rfl rfl rfl rfl (by decide) (by decide)
